import Mathlib

/-!
A verification development for the two control components of the repository:
the spline interpolator (`src/crates/control/src/spline_interpolator.rs`) and
the foot-bumper filter (`src/crates/control/src/foot_bumper_filter.rs`).

Modelling conventions:
* `f32` second values and `std::time::Duration` / `SystemTime` instants are
  both modelled as rationals (`ℚ`); the claims under scrutiny concern control
  flow and exact arithmetic identities, not floating-point rounding.
* Joint configurations (`Joints<f32>`, a fixed-arity vector of scalars) are
  modelled as an arbitrary module `V` over `ℚ`; componentwise f32 arithmetic
  becomes the module operations.
* Fallible operations return `Except`; a Rust panic (`unwrap`, `expect`) is
  modelled by `Option`, with `none` standing for the panic.
* The spline container comes from the external `splines` crate; its
  `Spline::from_vec`, `Spline::add`, `Spline::sample` and the helpers
  `search_lower_cp` / `normalize_time` / `lerp` / `cubic_hermite` are embedded
  below following that crate's algorithms, since the repository code is built
  directly on their behaviour.
* The f32 cosine used by `Interpolation::Cosine` is abstracted as a function
  parameter `cosf : ℚ → ℚ` standing for `x ↦ cos (π * x)`; theorems that need
  a fact about it (only `cosf 0 = 1`) take it as a hypothesis.
-/

/-- Interpolation modes of the external `splines` crate
(`splines::Interpolation<T, V>`): `Step` carries its threshold, `Bezier` and
`StrokeBezier` carry control values. -/
inductive Interpolation (V : Type) where
  | Linear
  | Cosine
  | CatmullRom
  | Step (threshold : ℚ)
  | Bezier (u : V)
  | StrokeBezier (u w : V)
deriving DecidableEq

/-- The Rust `Debug` name of an interpolation mode, as interpolated into error
strings by `format!`. For the payload-carrying variants the payload rendering
is elided; only the variant name is kept. -/
def Interpolation.debugName {V : Type} : Interpolation V → String
  | .Linear => "Linear"
  | .Cosine => "Cosine"
  | .CatmullRom => "CatmullRom"
  | .Step _ => "Step"
  | .Bezier _ => "Bezier"
  | .StrokeBezier _ _ => "StrokeBezier"

/-- The three interpolation modes accepted by `MapArgumentExt::map_argument`;
every key of a constructed spline carries one of these (the Rust code uses the
full `Interpolation` type but `map_argument` guarantees this refinement). -/
inductive SupportedInterpolation where
  | Linear
  | Cosine
  | CatmullRom
deriving DecidableEq

/-- The Rust `Debug` name of a supported interpolation mode. -/
def SupportedInterpolation.debugName : SupportedInterpolation → String
  | .Linear => "Linear"
  | .Cosine => "Cosine"
  | .CatmullRom => "CatmullRom"

/-- `InterpolatorError` of `spline_interpolator.rs` (lines 32-44). -/
inductive InterpolatorError where
  | InterpolationControlKeyError (interpolation_mode : String)
      (keys_before keys_after : Nat)
  | TooFewKeysError
  | UnsupportedInterpolationMode (interpolation_mode : String)
deriving DecidableEq

/-- `MapArgumentExt::map_argument` (lines 20-29): passes `Linear`, `Cosine`
and `CatmullRom` through and rejects every other mode with
`UnsupportedInterpolationMode` carrying the mode's `Debug` rendering. -/
def map_argument {V : Type} :
    Interpolation V → Except InterpolatorError SupportedInterpolation
  | .Linear => .ok .Linear
  | .Cosine => .ok .Cosine
  | .CatmullRom => .ok .CatmullRom
  | m => .error (.UnsupportedInterpolationMode m.debugName)

/-- `splines::Key<Duration, Joints<f32>>` as handed to `try_new`: a time, a
value and an interpolation mode. -/
structure Key (V : Type) where
  t : ℚ
  value : V
  interpolation : Interpolation V
deriving DecidableEq

/-- A key of the constructed spline (`splines::Key<f32, Joints<f32>>` after
`map_argument`): times are normalized seconds, the mode is supported. -/
structure SplineKey (V : Type) where
  t : ℚ
  value : V
  interpolation : SupportedInterpolation
deriving DecidableEq

variable {V : Type} [AddCommGroup V] [Module ℚ V]

/-- Placeholder key used to model Rust slice indexing; every access below is
in bounds whenever the surrounding `unwrap`-free Rust code is, so the
placeholder is never actually read by the theorems. -/
def defaultKey : Key V := ⟨0, 0, .Linear⟩

/-- Placeholder spline key (see `defaultKey`). -/
def defaultSplineKey : SplineKey V := ⟨0, 0, .Linear⟩

/-- `splines` crate `Interpolate::lerp`: `a * (1 - t) + b * t`. -/
def lerp (a b : V) (t : ℚ) : V := (1 - t) • a + t • b

/-- `splines` crate `Interpolate::cubic_hermite` on the quadruple
`(x, a, b, y)` of (value, time) pairs: the cubic Hermite basis applied to the
two inner values with finite-difference tangents. -/
def cubic_hermite (x a b y : V × ℚ) (t : ℚ) : V :=
  let t2 := t * t
  let t3 := t2 * t
  let m0 := (b.2 - x.2)⁻¹ • (b.1 - x.1)
  let m1 := (y.2 - a.2)⁻¹ • (y.1 - a.1)
  (2 * t3 - 3 * t2 + 1) • a.1 + (t3 - 2 * t2 + t) • m0 +
    (3 * t2 - 2 * t3) • b.1 + (t3 - t2) • m1

/-- `splines` crate `normalize_time`: position of `t` inside the span from
`cp` to `cp1`, as a fraction of the span. -/
def normalize_time (t : ℚ) (cp cp1 : SplineKey V) : ℚ :=
  (t - cp.t) / (cp1.t - cp.t)

/-- `splines` crate `search_lower_cp`: on the sorted key lists maintained by
`Spline` the crate's cursor loop terminates on the unique index `i` with
`keys[i].t ≤ t < keys[i+1].t` (the half-open spans of a sorted list are
pairwise disjoint), and returns `None` when `t` lies before the first key, at
or after the last key, or fewer than two keys exist. This definition computes
that index directly. -/
def search_lower_cp (cps : List (SplineKey V)) (t : ℚ) : Option Nat :=
  (List.range (cps.length - 1)).find? fun i =>
    decide ((cps.getD i defaultSplineKey).t ≤ t) &&
      decide (t < (cps.getD (i + 1) defaultSplineKey).t)

/-- `splines` crate `Spline::sample` restricted to the three modes occurring
in constructed splines: locate the lower control key, then interpolate on its
span; `CatmullRom` additionally needs one key on each side of the span and
yields `None` otherwise. `cosf` stands for `x ↦ cos (π * x)` on f32. -/
def sample (cosf : ℚ → ℚ) (cps : List (SplineKey V)) (t : ℚ) : Option V :=
  match search_lower_cp cps t with
  | none => none
  | some i =>
    let cp0 := cps.getD i defaultSplineKey
    match cp0.interpolation with
    | .Linear =>
        let cp1 := cps.getD (i + 1) defaultSplineKey
        some (lerp cp0.value cp1.value (normalize_time t cp0 cp1))
    | .Cosine =>
        let cp1 := cps.getD (i + 1) defaultSplineKey
        let nt := normalize_time t cp0 cp1
        some (lerp cp0.value cp1.value ((1 - cosf nt) / 2))
    | .CatmullRom =>
        if i = 0 ∨ cps.length - 2 ≤ i then none
        else
          let cp1 := cps.getD (i + 1) defaultSplineKey
          let cpm0 := cps.getD (i - 1) defaultSplineKey
          let cpm1 := cps.getD (i + 2) defaultSplineKey
          some (cubic_hermite (cpm0.value, cpm0.t) (cp0.value, cp0.t)
            (cp1.value, cp1.t) (cpm1.value, cpm1.t) (normalize_time t cp0 cp1))

/-- `splines` crate `Spline::from_vec`: sorts the keys by time with a stable
sort. -/
def from_vec (keys : List (SplineKey V)) : List (SplineKey V) :=
  List.insertionSort (fun a b => a.t ≤ b.t) keys

/-- `splines` crate `Spline::add`: pushes the key and re-sorts stably, which
on the already-sorted key list places the new key after all keys of smaller
or equal time and before all keys of larger time. -/
def spline_add (k : SplineKey V) : List (SplineKey V) → List (SplineKey V)
  | [] => [k]
  | x :: xs => if x.t ≤ k.t then x :: spline_add k xs else k :: x :: xs

/-- `SplineInterpolator` (lines 7-11): the spline's key list, the playback
clock and the playback end time, all in (modelled) seconds. -/
structure SplineInterpolator (V : Type) where
  spline : List (SplineKey V)
  current_time : ℚ
  end_time : ℚ
deriving DecidableEq

/-- `SplineInterpolator::create_zero_gradient` (lines 133-142): the
point-reflection of `key_other` through `key_center` in time, carrying
`key_other`'s value and `key_center`'s interpolation mode. -/
def create_zero_gradient (key_center key_other : SplineKey V) : SplineKey V :=
  ⟨2 * key_center.t - key_other.t, key_other.value, key_center.interpolation⟩

/-- The body of the closure mapped over the sorted keys in `try_new`
(lines 106-113): normalize the time against the start time and convert the
mode through `map_argument`, propagating its error. -/
def normalize_key (start_time : ℚ) (k : Key V) :
    Except InterpolatorError (SplineKey V) :=
  (map_argument k.interpolation).map fun m => ⟨k.t - start_time, k.value, m⟩

/-- `SplineInterpolator::try_new` (lines 93-131): reject fewer than two keys,
sort by time, normalize times to start at zero, convert modes (failing on the
first unsupported one), then append the two zero-gradient boundary keys; the
playback clock starts at zero and the end time is the last input key's time
minus the first input key's time. -/
def try_new (keys : List (Key V)) :
    Except InterpolatorError (SplineInterpolator V) :=
  if keys.length < 2 then .error .TooFewKeysError else
  let sorted := List.insertionSort (fun a b => a.t ≤ b.t) keys
  let start_time := (sorted.getD 0 defaultKey).t
  let end_time := (sorted.getLast?.getD defaultKey).t - start_time
  let last_key_index := sorted.length - 1
  (sorted.mapM (normalize_key start_time)).map fun mapped =>
    let spline0 := from_vec mapped
    let spline1 := spline_add
      (create_zero_gradient (spline0.getD last_key_index defaultSplineKey)
        (spline0.getD (last_key_index - 1) defaultSplineKey)) spline0
    let spline2 := spline_add
      (create_zero_gradient (spline1.getD 0 defaultSplineKey)
        (spline1.getD 1 defaultSplineKey)) spline1
    { spline := spline2, current_time := 0, end_time := end_time }

/-- `SplineInterpolator::advance_by` (lines 144-146). -/
def SplineInterpolator.advance_by (s : SplineInterpolator V) (time_step : ℚ) :
    SplineInterpolator V :=
  { s with current_time := s.current_time + time_step }

/-- `SplineInterpolator::is_finished` (lines 159-161). -/
def SplineInterpolator.is_finished (s : SplineInterpolator V) : Bool :=
  decide (s.end_time ≤ s.current_time)

/-- `SplineInterpolator::reset` (lines 163-165). -/
def SplineInterpolator.reset (s : SplineInterpolator V) : SplineInterpolator V :=
  { s with current_time := 0 }

/-- `InterpolatorError::create_control_key_error` (lines 46-69): take the last
key strictly before the playback time (`unwrap`, hence `none` = panic when no
such key exists), count the keys preceding the first key that shares its
time, and report the rest as following keys. -/
def create_control_key_error (keys : List (SplineKey V)) (current_time : ℚ) :
    Option InterpolatorError :=
  match (keys.filter fun k => decide (k.t < current_time)).getLast? with
  | none => none
  | some current_control_key =>
    let prior_control_points :=
      (keys.takeWhile fun k => decide (k.t ≠ current_control_key.t)).length
    some (.InterpolationControlKeyError
      current_control_key.interpolation.debugName
      prior_control_points (keys.length - 1 - prior_control_points))

/-- The scrutinee of `value` (lines 149-153): past the end time, the
second-to-last key of the (reversed) spline key list; otherwise a curve
sample at the playback time. -/
def sample_or_terminal (cosf : ℚ → ℚ) (s : SplineInterpolator V) : Option V :=
  if s.end_time ≤ s.current_time then (s.spline.reverse[1]?).map fun k => k.value
  else sample cosf s.spline s.current_time

/-- `SplineInterpolator::value` (lines 148-157): the sample, or else the
control-key diagnostic error; the outer `Option` models the `unwrap` panic
inside `create_control_key_error`. -/
def SplineInterpolator.value (cosf : ℚ → ℚ) (s : SplineInterpolator V) :
    Option (Except InterpolatorError V) :=
  match sample_or_terminal cosf s with
  | some v => some (.ok v)
  | none => (create_control_key_error s.spline s.current_time).map
      fun e => Except.error e

/-- `types::fall_state::FallState`. Modelled from the spec: the `types` crate
is part of the repository but not under `src/`; the spec (§3) describes an
"external enum gating obstacle reporting; only the upright variant permits
reporting", so the non-`Upright` variants are collapsed into representative
constructors. -/
inductive FallState where
  | Upright
  | Falling
  | Fallen
  | StandingUp
deriving DecidableEq

/-- The four raw touch-sensor booleans read by the filter. Modelled from the
spec (§6): "four raw touch-sensor booleans (left-outer, left-inner,
right-outer, right-inner)", with the field names used by
`foot_bumper_filter.rs` lines 95 and 105. -/
structure TouchSensors where
  left_foot_left : Bool
  left_foot_right : Bool
  right_foot_left : Bool
  right_foot_right : Bool
deriving DecidableEq

/-- A 2D point (`nalgebra::Point2<f32>`), in robot-centric coordinates. -/
structure Point2 where
  x : ℚ
  y : ℚ
deriving DecidableEq

/-- `types::foot_bumper_obstacle::FootBumperObstacle`. Modelled from the
spec (§6): an obstacle record `{position: 2D point, frame: robot-centric}`,
with the field name used by `foot_bumper_filter.rs` line 165. -/
structure FootBumperObstacle where
  position_in_robot : Point2
deriving DecidableEq

/-- `FootBumperFilter` (lines 13-28): the three geometry points, the per-side
health flags, detection ring buffers, activation counts, last-activation
instants and edge-detection flags. `VecDeque<bool>` is a `List Bool`;
`SystemTime` instants are rationals. -/
structure FootBumperFilter where
  left_point : Point2
  right_point : Point2
  middle_point : Point2
  left_in_use : Bool
  right_in_use : Bool
  left_detection_buffer : List Bool
  right_detection_buffer : List Bool
  left_count : Int
  right_count : Int
  last_left_time : Option ℚ
  last_right_time : Option ℚ
  left_pressed_last_cycle : Bool
  right_pressed_last_cycle : Bool
deriving DecidableEq

/-- The per-cycle inputs and parameters consumed by `FootBumperFilter::cycle`
(`CycleContext`, lines 37-56), plus `now`, the instant returned by
`SystemTime::now()` during the cycle. -/
structure CycleContext where
  acceptance_duration : ℚ
  activations_needed : Int
  enabled : Bool
  number_of_detections_in_buffer_for_defective_declaration : Nat
  number_of_detections_in_buffer_to_reset_in_use : Nat
  now : ℚ
  fall_state : FallState
  touch_sensors : TouchSensors
deriving DecidableEq

/-- `SystemTime::elapsed` at instant `now` for a stored instant `t`: the
elapsed duration, or a failure (propagated to the
`expect("Time ran backwards")` panic) when the stored instant lies in the
future. -/
def elapsed (now t : ℚ) : Option ℚ :=
  if now < t then none else some (now - t)

/-- One side's edge-detection block (lines 95-103 resp. 105-113): a raw press
with no press on the previous cycle increments the count, marks the side
pressed and records the current instant; a raw release just clears the
pressed flag. Returns (count, pressed flag, last-activation instant). -/
def touch_edge (raw : Bool) (now : ℚ) (count : Int) (pressed : Bool)
    (last : Option ℚ) : Int × Bool × Option ℚ :=
  if raw then
    if !pressed then (count + 1, true, some now) else (count, pressed, last)
  else (count, false, last)

/-- One side's decay block (lines 115-125 resp. 127-137): if a last-activation
instant is recorded and more than `acceptance_duration` has elapsed since,
reset the count, the flag and the instant; `none` models the
"Time ran backwards" panic. -/
def activation_decay (now acceptance_duration : ℚ) (count : Int)
    (pressed : Bool) (last : Option ℚ) : Option (Int × Bool × Option ℚ) :=
  match last with
  | none => some (count, pressed, none)
  | some t => do
      let e ← elapsed now t
      if acceptance_duration < e then some (0, false, none)
      else some (count, pressed, some t)

/-- One side's full per-cycle state update: the edge-detection block followed
by the decay block. -/
def side_cycle (raw : Bool) (now acceptance_duration : ℚ) (count : Int)
    (pressed : Bool) (last : Option ℚ) : Option (Int × Bool × Option ℚ) :=
  let e := touch_edge raw now count pressed last
  activation_decay now acceptance_duration e.1 e.2.1 e.2.2

/-- `FootBumperFilter::check_for_bumper_errors` (lines 183-204): count the
true entries of each updated detection buffer; a count reaching the defective
threshold clears the side's in-use flag, and a side not in use whose count is
at or below the reset threshold becomes in use again. Returns the new
(left, right) in-use flags. -/
def check_for_bumper_errors (defective_declaration_threshold
    reset_to_in_use_threshold : Nat) (left_buffer right_buffer : List Bool)
    (left_in_use right_in_use : Bool) : Bool × Bool :=
  let left_count := left_buffer.count true
  let left1 := if defective_declaration_threshold ≤ left_count then false
    else left_in_use
  let right_count := right_buffer.count true
  let right1 := if defective_declaration_threshold ≤ right_count then false
    else right_in_use
  let left2 := if !left1 && decide (left_count ≤ reset_to_in_use_threshold)
    then true else left1
  let right2 := if !right1 && decide (right_count ≤ reset_to_in_use_threshold)
    then true else right1
  (left2, right2)

/-- `FootBumperFilter::cycle` (lines 87-181): an early empty return when
disabled; otherwise per-side edge detection, per-side decay, ring-buffer
update (push the post-decay pressed flag, evict the oldest entry), detection
thresholds, health update, and the obstacle decision table. `none` models the
"Time ran backwards" panic inside the decay blocks. -/
def FootBumperFilter.cycle (s : FootBumperFilter) (ctx : CycleContext) :
    Option (FootBumperFilter × List FootBumperObstacle) :=
  if !ctx.enabled then some (s, []) else do
  let left1 ← side_cycle
    (ctx.touch_sensors.left_foot_left || ctx.touch_sensors.left_foot_right)
    ctx.now ctx.acceptance_duration
    s.left_count s.left_pressed_last_cycle s.last_left_time
  let right1 ← side_cycle
    (ctx.touch_sensors.right_foot_left || ctx.touch_sensors.right_foot_right)
    ctx.now ctx.acceptance_duration
    s.right_count s.right_pressed_last_cycle s.last_right_time
  let left_detection_buffer := (s.left_detection_buffer ++ [left1.2.1]).tail
  let right_detection_buffer := (s.right_detection_buffer ++ [right1.2.1]).tail
  let obstacle_detected_on_left := decide (ctx.activations_needed ≤ left1.1)
  let obstacle_detected_on_right := decide (ctx.activations_needed ≤ right1.1)
  let in_use := check_for_bumper_errors
    ctx.number_of_detections_in_buffer_for_defective_declaration
    ctx.number_of_detections_in_buffer_to_reset_in_use
    left_detection_buffer right_detection_buffer s.left_in_use s.right_in_use
  let obstacle_positions : List Point2 :=
    match ctx.fall_state, obstacle_detected_on_left, obstacle_detected_on_right,
        in_use.1, in_use.2 with
    | .Upright, true, true, true, true => [s.middle_point]
    | .Upright, true, false, true, _ => [s.left_point]
    | .Upright, false, true, _, true => [s.right_point]
    | _, _, _, _, _ => []
  some ({ s with
      left_count := left1.1, right_count := right1.1,
      left_pressed_last_cycle := left1.2.1, right_pressed_last_cycle := right1.2.1,
      last_left_time := left1.2.2, last_right_time := right1.2.2,
      left_detection_buffer := left_detection_buffer,
      right_detection_buffer := right_detection_buffer,
      left_in_use := in_use.1, right_in_use := in_use.2 },
    obstacle_positions.map fun p => ⟨p⟩)

/-- A run of consecutive cycles from a state, threading the state and
discarding the outputs; `none` as soon as one cycle panics. -/
def run_cycles (s : FootBumperFilter) : List CycleContext → Option FootBumperFilter
  | [] => some s
  | ctx :: rest =>
    match s.cycle ctx with
    | none => none
    | some (s1, _) => run_cycles s1 rest

/-- The mode predicate of the spec: an interpolation mode inside
{Linear, Cosine, CatmullRom}. -/
def supported_mode {V : Type} (m : Interpolation V) : Prop :=
  m = .Linear ∨ m = .Cosine ∨ m = .CatmullRom

instance {V : Type} [DecidableEq V] (m : Interpolation V) :
    Decidable (supported_mode m) := by
  unfold supported_mode; infer_instance

/-- The supported mode denoted by a supported `Interpolation` (arbitrary on
unsupported modes, which `map_argument` rejects before this is ever used). -/
def supported_of {V : Type} : Interpolation V → SupportedInterpolation
  | .Linear => .Linear
  | .Cosine => .Cosine
  | .CatmullRom => .CatmullRom
  | _ => .Linear

/-- The normalized spline keys produced inside `try_new` from a sorted key
list: times shifted by the first key's time, modes converted. -/
def normalized (ks : List (Key V)) : List (SplineKey V) :=
  ks.map fun k =>
    ⟨k.t - (ks.getD 0 defaultKey).t, k.value, supported_of k.interpolation⟩

/-- The leading boundary key added by `try_new`: the zero-gradient
point-reflection of the second key through the first. -/
def boundary_start (m : List (SplineKey V)) : SplineKey V :=
  create_zero_gradient (m.getD 0 defaultSplineKey) (m.getD 1 defaultSplineKey)

/-- The trailing boundary key added by `try_new`: the zero-gradient
point-reflection of the second-to-last key through the last. -/
def boundary_end (m : List (SplineKey V)) : SplineKey V :=
  create_zero_gradient (m.getD (m.length - 1) defaultSplineKey)
    (m.getD (m.length - 2) defaultSplineKey)

/-- A fixed stand-in for the f32 cosine parameter `x ↦ cos (π * x)`: the
witnesses only need its value 1 at 0. -/
def cosfConst : ℚ → ℚ := fun _ => 1

/-- A concrete two-key motion: value 3 at time 0, value 7 at time 1, linear. -/
def ks2 : List (Key ℚ) := [⟨0, 3, .Linear⟩, ⟨1, 7, .Linear⟩]

/-- The interpolator `try_new` builds from `ks2`. -/
def interp2 : SplineInterpolator ℚ :=
  ⟨[⟨-1, 7, .Linear⟩, ⟨0, 3, .Linear⟩, ⟨1, 7, .Linear⟩, ⟨2, 3, .Linear⟩], 0, 1⟩

/-- A two-key motion whose first key uses the unsupported `Step` mode. -/
def ks_step : List (Key ℚ) := [⟨0, 5, .Step 0⟩, ⟨1, 6, .Linear⟩]

/-- An interpolator state whose spline samples a `CatmullRom` segment lacking
a trailing control point: four keys at times 0..3, playback time 5/2, end
time 10 (so the terminal branch is not taken and sampling fails). -/
def s4 : SplineInterpolator ℚ :=
  ⟨[⟨0, 10, .CatmullRom⟩, ⟨1, 11, .CatmullRom⟩, ⟨2, 12, .CatmullRom⟩,
    ⟨3, 13, .CatmullRom⟩], 5/2, 10⟩

/-
The Batteries rational operations are `@[irreducible]`, which blocks `decide`
and `rfl` on concrete rational computations; the theorems below evaluate the
embedded code on concrete inputs, so restore the defining equations locally.
-/
attribute [local semireducible] Rat.add Rat.sub Rat.mul Rat.inv

/-- Decidable equality on `Except`, for evaluating the embedded fallible
operations on concrete inputs. -/
instance {ε α : Type} [DecidableEq ε] [DecidableEq α] : DecidableEq (Except ε α) :=
  fun a b => match a, b with
  | .ok x, .ok y => if h : x = y then .isTrue (by rw [h]) else .isFalse (by simp [h])
  | .error e, .error f =>
    if h : e = f then .isTrue (by rw [h]) else .isFalse (by simp [h])
  | .ok _, .error _ => .isFalse (by simp)
  | .error _, .ok _ => .isFalse (by simp)

/-- A concrete filter state: geometry points as placed by `new`, both sides
healthy, two-slot buffers, neutral counters. -/
def filter0 : FootBumperFilter :=
  ⟨⟨1, 0⟩, ⟨1, 0⟩, ⟨1, 0⟩, true, true, [false, false], [false, false],
    0, 0, none, none, false, false⟩

/-- A concrete cycle context with the filter disabled. -/
def ctx_disabled : CycleContext :=
  ⟨1, 2, false, 2, 0, 0, .Upright, ⟨true, false, false, true⟩⟩

/-- A concrete cycle context with the filter enabled and no sensor pressed. -/
def ctx_enabled : CycleContext :=
  ⟨1, 2, true, 2, 0, 0, .Upright, ⟨false, false, false, false⟩⟩

/-- Destructuring an enabled, non-panicking cycle: the per-side updates
succeed, and the new state and obstacle list are the ones computed by the
cycle body from their results. -/
theorem cycle_some_elim (s : FootBumperFilter) (ctx : CycleContext)
    (s1 : FootBumperFilter) (obs : List FootBumperObstacle)
    (hen : ctx.enabled = true) (h : s.cycle ctx = some (s1, obs)) :
    ∃ left1 right1 : Int × Bool × Option ℚ,
      side_cycle (ctx.touch_sensors.left_foot_left || ctx.touch_sensors.left_foot_right)
        ctx.now ctx.acceptance_duration s.left_count s.left_pressed_last_cycle
        s.last_left_time = some left1 ∧
      side_cycle (ctx.touch_sensors.right_foot_left || ctx.touch_sensors.right_foot_right)
        ctx.now ctx.acceptance_duration s.right_count s.right_pressed_last_cycle
        s.last_right_time = some right1 ∧
      s1 = { s with
        left_count := left1.1, right_count := right1.1,
        left_pressed_last_cycle := left1.2.1, right_pressed_last_cycle := right1.2.1,
        last_left_time := left1.2.2, last_right_time := right1.2.2,
        left_detection_buffer := (s.left_detection_buffer ++ [left1.2.1]).tail,
        right_detection_buffer := (s.right_detection_buffer ++ [right1.2.1]).tail,
        left_in_use := (check_for_bumper_errors
          ctx.number_of_detections_in_buffer_for_defective_declaration
          ctx.number_of_detections_in_buffer_to_reset_in_use
          ((s.left_detection_buffer ++ [left1.2.1]).tail)
          ((s.right_detection_buffer ++ [right1.2.1]).tail)
          s.left_in_use s.right_in_use).1,
        right_in_use := (check_for_bumper_errors
          ctx.number_of_detections_in_buffer_for_defective_declaration
          ctx.number_of_detections_in_buffer_to_reset_in_use
          ((s.left_detection_buffer ++ [left1.2.1]).tail)
          ((s.right_detection_buffer ++ [right1.2.1]).tail)
          s.left_in_use s.right_in_use).2 } ∧
      obs = (match ctx.fall_state, decide (ctx.activations_needed ≤ left1.1),
          decide (ctx.activations_needed ≤ right1.1),
          (check_for_bumper_errors
            ctx.number_of_detections_in_buffer_for_defective_declaration
            ctx.number_of_detections_in_buffer_to_reset_in_use
            ((s.left_detection_buffer ++ [left1.2.1]).tail)
            ((s.right_detection_buffer ++ [right1.2.1]).tail)
            s.left_in_use s.right_in_use).1,
          (check_for_bumper_errors
            ctx.number_of_detections_in_buffer_for_defective_declaration
            ctx.number_of_detections_in_buffer_to_reset_in_use
            ((s.left_detection_buffer ++ [left1.2.1]).tail)
            ((s.right_detection_buffer ++ [right1.2.1]).tail)
            s.left_in_use s.right_in_use).2 with
        | .Upright, true, true, true, true => [s.middle_point]
        | .Upright, true, false, true, _ => [s.left_point]
        | .Upright, false, true, _, true => [s.right_point]
        | _, _, _, _, _ => []).map fun p => ⟨p⟩ := by
  rw [FootBumperFilter.cycle, hen] at h
  simp only [Bool.not_true, Bool.false_eq_true, if_false] at h
  obtain ⟨left1, hl, h⟩ := Option.bind_eq_some.mp h
  obtain ⟨right1, hr, h⟩ := Option.bind_eq_some.mp h
  refine ⟨left1, right1, hl, hr, ?_, ?_⟩
  · exact (Prod.mk.injEq _ _ _ _ ▸ Option.some.inj h).1.symm
  · exact (Prod.mk.injEq _ _ _ _ ▸ Option.some.inj h).2.symm

/-- C2: with the enable flag false, a cycle leaves the whole filter state
unchanged and returns an empty obstacle list, so any run equals the run with
its disabled cycles removed. -/
theorem disabled_cycle_transparent :
    (∀ (s : FootBumperFilter) (ctx : CycleContext), ctx.enabled = false →
      s.cycle ctx = some (s, [])) ∧
    (∀ (s : FootBumperFilter) (ctxs : List CycleContext),
      run_cycles s ctxs = run_cycles s (ctxs.filter fun c => c.enabled)) := by
  have h1 : ∀ (s : FootBumperFilter) (ctx : CycleContext), ctx.enabled = false →
      s.cycle ctx = some (s, []) := by
    intro s ctx h
    rw [FootBumperFilter.cycle, h]
    rfl
  refine ⟨h1, ?_⟩
  intro s ctxs
  induction ctxs generalizing s with
  | nil => rfl
  | cons c rest ih =>
    cases hc : c.enabled with
    | true =>
      rw [List.filter_cons_of_pos (by simp [hc])]
      rw [run_cycles, run_cycles]
      cases hcy : s.cycle c with
      | none => rfl
      | some pr => exact ih pr.1
    | false =>
      rw [List.filter_cons_of_neg (by simp [hc])]
      rw [run_cycles, h1 s c hc]
      exact ih s

/-- Witness for C2 at a concrete state and a concrete disabled context. -/
theorem disabled_cycle_transparent_witness :
    ctx_disabled.enabled = false ∧
    filter0.cycle ctx_disabled = some (filter0, []) ∧
    run_cycles filter0 [ctx_disabled, ctx_disabled] =
      run_cycles filter0 ([ctx_disabled, ctx_disabled].filter fun c => c.enabled) :=
  ⟨rfl, disabled_cycle_transparent.1 filter0 ctx_disabled rfl,
    disabled_cycle_transparent.2 filter0 [ctx_disabled, ctx_disabled]⟩

/-- C7: per side on an enabled cycle, a fresh press edge increments the
activation count, records the current instant and sets the pressed flag; a
raw release clears the pressed flag in the debounce step without touching the
count or the instant; a last activation older than the acceptance duration
resets count, flag and instant, and a younger one changes nothing; and the
per-side state of an enabled cycle is exactly this edge-then-decay update. -/
theorem side_debounce_decay_rules (raw : Bool) (now acc : ℚ) (count : Int)
    (pressed : Bool) (last : Option ℚ) :
    (raw = true → pressed = false → 0 ≤ acc →
      side_cycle raw now acc count pressed last = some (count + 1, true, some now)) ∧
    (raw = false → touch_edge raw now count pressed last = (count, false, last)) ∧
    (∀ (c : Int) (p : Bool) (t : ℚ), t ≤ now → acc < now - t →
      activation_decay now acc c p (some t) = some (0, false, none)) ∧
    (∀ (c : Int) (p : Bool) (t : ℚ), t ≤ now → now - t ≤ acc →
      activation_decay now acc c p (some t) = some (c, p, some t)) ∧
    (∀ (s : FootBumperFilter) (ctx : CycleContext) (s1 : FootBumperFilter)
        (obs : List FootBumperObstacle), ctx.enabled = true →
      s.cycle ctx = some (s1, obs) →
      side_cycle (ctx.touch_sensors.left_foot_left || ctx.touch_sensors.left_foot_right)
          ctx.now ctx.acceptance_duration s.left_count s.left_pressed_last_cycle
          s.last_left_time
        = some (s1.left_count, s1.left_pressed_last_cycle, s1.last_left_time) ∧
      side_cycle (ctx.touch_sensors.right_foot_left || ctx.touch_sensors.right_foot_right)
          ctx.now ctx.acceptance_duration s.right_count s.right_pressed_last_cycle
          s.last_right_time
        = some (s1.right_count, s1.right_pressed_last_cycle, s1.last_right_time)) := by
  refine ⟨?_, ?_, ?_, ?_, ?_⟩
  · intro hraw hpressed hacc
    rw [side_cycle]
    simp only [touch_edge, hraw, hpressed, if_true, Bool.not_false]
    simp only [activation_decay, elapsed, lt_irrefl, if_neg (lt_irrefl now), sub_self]
    simp [Option.bind, not_lt.2 hacc]
  · intro hraw
    simp [touch_edge, hraw]
  · intro c p t ht hdecay
    simp [activation_decay, elapsed, not_lt.2 ht, hdecay]
  · intro c p t ht hfresh
    simp [activation_decay, elapsed, not_lt.2 ht, not_lt.2 hfresh]
  · intro s ctx s1 obs hen hcy
    obtain ⟨left1, right1, hl, hr, hs1, -⟩ := cycle_some_elim s ctx s1 obs hen hcy
    subst hs1
    exact ⟨hl, hr⟩

/-- Witness for C7 at concrete inputs: a fresh edge at instant 5 with window
2 increments the count, and decay at instant 5 from a last activation at 1
(elapsed 4 > 2) resets the side. -/
theorem side_debounce_decay_rules_witness :
    side_cycle true 5 2 3 false none = some (4, true, some 5) ∧
    activation_decay 5 2 7 true (some 1) = some (0, false, none) :=
  ⟨(side_debounce_decay_rules true 5 2 3 false none).1 rfl rfl (by decide),
    (side_debounce_decay_rules true 5 2 3 false none).2.2.1 7 true 1 (by decide)
      (by decide)⟩

/-- C8: per side, once the updated ring buffer's true-count reaches the
defective threshold the in-use flag is cleared; a side not in use whose
true-count is at or below the reset threshold becomes in use again; in every
other case the flag is unchanged. The right side is the same computation on
the right-hand arguments, and an enabled cycle stores exactly these flags,
computed from the buffers updated with the post-debounce pressed flags. -/
theorem bumper_health_hysteresis :
    (∀ (defT resetT : Nat) (buf other : List Bool) (inUse otherUse : Bool),
      (defT ≤ buf.count true → resetT < buf.count true →
        (check_for_bumper_errors defT resetT buf other inUse otherUse).1 = false) ∧
      (defT ≤ buf.count true → buf.count true ≤ resetT →
        (check_for_bumper_errors defT resetT buf other inUse otherUse).1 = true) ∧
      (buf.count true < defT → inUse = true →
        (check_for_bumper_errors defT resetT buf other inUse otherUse).1 = true) ∧
      (buf.count true < defT → inUse = false → buf.count true ≤ resetT →
        (check_for_bumper_errors defT resetT buf other inUse otherUse).1 = true) ∧
      (buf.count true < defT → inUse = false → resetT < buf.count true →
        (check_for_bumper_errors defT resetT buf other inUse otherUse).1 = false) ∧
      ((check_for_bumper_errors defT resetT buf other inUse otherUse).2 =
        (check_for_bumper_errors defT resetT other buf otherUse inUse).1)) ∧
    (∀ (s : FootBumperFilter) (ctx : CycleContext) (s1 : FootBumperFilter)
        (obs : List FootBumperObstacle), ctx.enabled = true →
      s.cycle ctx = some (s1, obs) →
      s1.left_detection_buffer =
        (s.left_detection_buffer ++ [s1.left_pressed_last_cycle]).tail ∧
      s1.right_detection_buffer =
        (s.right_detection_buffer ++ [s1.right_pressed_last_cycle]).tail ∧
      s1.left_in_use = (check_for_bumper_errors
        ctx.number_of_detections_in_buffer_for_defective_declaration
        ctx.number_of_detections_in_buffer_to_reset_in_use
        s1.left_detection_buffer s1.right_detection_buffer
        s.left_in_use s.right_in_use).1 ∧
      s1.right_in_use = (check_for_bumper_errors
        ctx.number_of_detections_in_buffer_for_defective_declaration
        ctx.number_of_detections_in_buffer_to_reset_in_use
        s1.left_detection_buffer s1.right_detection_buffer
        s.left_in_use s.right_in_use).2) := by
  constructor
  · intro defT resetT buf other inUse otherUse
    refine ⟨?_, ?_, ?_, ?_, ?_, rfl⟩
    · intro hdef hres
      simp [check_for_bumper_errors, hdef, Nat.not_le.2 hres]
    · intro hdef hres
      simp [check_for_bumper_errors, hdef, hres]
    · intro hdef hu
      simp [check_for_bumper_errors, Nat.not_le.2 hdef, hu]
    · intro hdef hu hres
      simp [check_for_bumper_errors, Nat.not_le.2 hdef, hu, hres]
    · intro hdef hu hres
      simp [check_for_bumper_errors, Nat.not_le.2 hdef, hu, Nat.not_le.2 hres]
  · intro s ctx s1 obs hen hcy
    obtain ⟨left1, right1, -, -, hs1, -⟩ := cycle_some_elim s ctx s1 obs hen hcy
    subst hs1
    exact ⟨rfl, rfl, rfl, rfl⟩

/-- Witness for C8: a buffer with two of three entries true against a
defective threshold of 2 and reset threshold of 0 clears the in-use flag. -/
theorem bumper_health_hysteresis_witness :
    (2 ≤ [true, true, false].count true) ∧ (0 < [true, true, false].count true) ∧
    (check_for_bumper_errors 2 0 [true, true, false] [] true true).1 = false :=
  ⟨by decide, by decide,
    (bumper_health_hysteresis.1 2 0 [true, true, false] [] true true).1
      (by decide) (by decide)⟩

/-- C1: an enabled, non-panicking cycle reports at most one obstacle; none
when not upright; and when upright, the middle point exactly when both sides
are detected (post-update activation count at or above the needed
activations) and both in use, the left point exactly when only the left side
is detected and the left side in use, the right point exactly when only the
right side is detected and the right side in use, and nothing otherwise. -/
theorem foot_bumper_obstacle_cases (s : FootBumperFilter) (ctx : CycleContext)
    (s1 : FootBumperFilter) (obs : List FootBumperObstacle)
    (hen : ctx.enabled = true) (hcy : s.cycle ctx = some (s1, obs)) :
    obs.length ≤ 1 ∧
    (ctx.fall_state ≠ .Upright → obs = []) ∧
    (ctx.fall_state = .Upright →
      obs = if ctx.activations_needed ≤ s1.left_count ∧
          ctx.activations_needed ≤ s1.right_count ∧
          s1.left_in_use = true ∧ s1.right_in_use = true
        then [⟨s.middle_point⟩]
        else if ctx.activations_needed ≤ s1.left_count ∧
          ¬ctx.activations_needed ≤ s1.right_count ∧ s1.left_in_use = true
        then [⟨s.left_point⟩]
        else if ¬ctx.activations_needed ≤ s1.left_count ∧
          ctx.activations_needed ≤ s1.right_count ∧ s1.right_in_use = true
        then [⟨s.right_point⟩]
        else []) := by
  obtain ⟨left1, right1, -, -, hs1, hobs⟩ := cycle_some_elim s ctx s1 obs hen hcy
  subst hs1
  subst hobs
  cases hfs : ctx.fall_state with
  | Upright =>
    rcases Decidable.em (ctx.activations_needed ≤ left1.1) with hdl | hdl <;>
      rcases Decidable.em (ctx.activations_needed ≤ right1.1) with hdr | hdr <;>
      cases hu1 : (check_for_bumper_errors
          ctx.number_of_detections_in_buffer_for_defective_declaration
          ctx.number_of_detections_in_buffer_to_reset_in_use
          ((s.left_detection_buffer ++ [left1.2.1]).tail)
          ((s.right_detection_buffer ++ [right1.2.1]).tail)
          s.left_in_use s.right_in_use).1 <;>
      cases hu2 : (check_for_bumper_errors
          ctx.number_of_detections_in_buffer_for_defective_declaration
          ctx.number_of_detections_in_buffer_to_reset_in_use
          ((s.left_detection_buffer ++ [left1.2.1]).tail)
          ((s.right_detection_buffer ++ [right1.2.1]).tail)
          s.left_in_use s.right_in_use).2 <;>
      simp_all [-not_le]
  | Falling => simp_all
  | Fallen => simp_all
  | StandingUp => simp_all

/-- Witness for C1: the concrete enabled context on the concrete state
(no sensor pressed, upright) reports no obstacle. -/
theorem foot_bumper_obstacle_cases_witness :
    ctx_enabled.enabled = true ∧
    filter0.cycle ctx_enabled = some (filter0, []) ∧
    ([] : List FootBumperObstacle).length ≤ 1 :=
  ⟨rfl, by decide,
    (foot_bumper_obstacle_cases filter0 ctx_enabled filter0 [] rfl (by decide)).1⟩

/-- `map_argument` accepts exactly the supported modes, producing their
`SupportedInterpolation` counterpart. -/
theorem map_argument_eq_ok {m : Interpolation V} (h : supported_mode m) :
    map_argument m = .ok (supported_of m) := by
  rcases h with h | h | h <;> subst h <;> rfl

/-- `map_argument` rejects every unsupported mode with the
`UnsupportedInterpolationMode` error naming it. -/
theorem map_argument_eq_error {m : Interpolation V} (h : ¬supported_mode m) :
    map_argument m = .error (.UnsupportedInterpolationMode m.debugName) := by
  cases m <;> first
    | rfl
    | exact absurd (by simp [supported_mode]) h

/-- A successful `normalize_key` certifies a supported mode. -/
theorem normalize_key_ok_supported {t0 : ℚ} {k : Key V} {y : SplineKey V}
    (h : normalize_key t0 k = .ok y) : supported_mode k.interpolation := by
  by_contra hns
  rw [normalize_key, map_argument_eq_error hns] at h
  cases h

/-- Mapping `normalize_key` over keys of supported modes succeeds and is the
pointwise normalization. -/
theorem mapM_normalize_key_ok (t0 : ℚ) (l : List (Key V))
    (h : ∀ k ∈ l, supported_mode k.interpolation) :
    l.mapM (normalize_key t0) =
      .ok (l.map fun k => ⟨k.t - t0, k.value, supported_of k.interpolation⟩) := by
  induction l with
  | nil => rfl
  | cons x xs ih =>
    rw [List.mapM_cons, normalize_key, map_argument_eq_ok (h x (List.mem_cons_self x xs)),
      ih fun k hk => h k (List.mem_cons_of_mem x hk)]
    rfl

/-- A successful `mapM` of `normalize_key` certifies that every key's mode is
supported. -/
theorem mapM_normalize_key_ok_supported {t0 : ℚ} {l : List (Key V)}
    {m : List (SplineKey V)} (h : l.mapM (normalize_key t0) = .ok m) :
    ∀ k ∈ l, supported_mode k.interpolation := by
  induction l generalizing m with
  | nil => simp
  | cons x xs ih =>
    rw [List.mapM_cons] at h
    cases hfx : normalize_key t0 x with
    | error e => rw [hfx] at h; cases h
    | ok y =>
      rw [hfx] at h
      cases hxs : xs.mapM (normalize_key t0) with
      | error e => rw [hxs] at h; cases h
      | ok ys =>
        intro k hk
        rcases List.mem_cons.mp hk with rfl | hk
        · exact normalize_key_ok_supported hfx
        · exact ih hxs k hk

/-- When some key has an unsupported mode, `mapM` of `normalize_key` fails
with the `UnsupportedInterpolationMode` error of the first such key. -/
theorem mapM_normalize_key_error (t0 : ℚ) (l : List (Key V))
    (h : ∃ k ∈ l, ¬supported_mode k.interpolation) :
    ∃ k ∈ l, ¬supported_mode k.interpolation ∧
      l.mapM (normalize_key t0) =
        .error (.UnsupportedInterpolationMode k.interpolation.debugName) := by
  induction l with
  | nil => simp at h
  | cons x xs ih =>
    by_cases hx : supported_mode x.interpolation
    · have hxs : ∃ k ∈ xs, ¬supported_mode k.interpolation := by
        rcases h with ⟨k, hk, hns⟩
        rcases List.mem_cons.mp hk with rfl | hk
        · exact absurd hx hns
        · exact ⟨k, hk, hns⟩
      obtain ⟨k, hkmem, hns, heq⟩ := ih hxs
      refine ⟨k, List.mem_cons_of_mem x hkmem, hns, ?_⟩
      rw [List.mapM_cons, normalize_key, map_argument_eq_ok hx, heq]
      rfl
    · refine ⟨x, List.mem_cons_self x xs, hx, ?_⟩
      rw [List.mapM_cons, normalize_key, map_argument_eq_error hx]
      rfl

/-- A successfully constructed interpolator certifies that every input key's
mode is supported. -/
theorem try_new_ok_supported {ks : List (Key V)} {s : SplineInterpolator V}
    (htry : try_new ks = .ok s) : ∀ k ∈ ks, supported_mode k.interpolation := by
  intro k hk
  rw [try_new] at htry
  by_cases hlen : ks.length < 2
  · rw [if_pos hlen] at htry; cases htry
  · rw [if_neg hlen] at htry
    simp only [] at htry
    cases hm : (List.insertionSort (fun a b : Key V => a.t ≤ b.t) ks).mapM
        (normalize_key ((List.insertionSort (fun a b : Key V => a.t ≤ b.t) ks).getD 0
          defaultKey).t) with
    | error e => rw [hm] at htry; cases htry
    | ok m =>
      exact mapM_normalize_key_ok_supported hm k
        ((List.mem_insertionSort (r := fun a b : Key V => a.t ≤ b.t)).mpr hk)

/-- C9: construction from fewer than two keys fails with `TooFewKeysError`,
and construction from at least two keys one of which has a mode outside
{Linear, Cosine, CatmullRom} fails with `UnsupportedInterpolationMode` naming
the mode of such a key. -/
theorem try_new_error_cases :
    (∀ ks : List (Key V), ks.length < 2 → try_new ks = .error .TooFewKeysError) ∧
    (∀ ks : List (Key V), 2 ≤ ks.length →
      (∃ k ∈ ks, ¬supported_mode k.interpolation) →
      ∃ k ∈ ks, ¬supported_mode k.interpolation ∧
        try_new ks = .error (.UnsupportedInterpolationMode k.interpolation.debugName)) := by
  constructor
  · intro ks hlen
    rw [try_new, if_pos hlen]
  · intro ks hlen hex
    have hex2 : ∃ k ∈ List.insertionSort (fun a b : Key V => a.t ≤ b.t) ks,
        ¬supported_mode k.interpolation := by
      rcases hex with ⟨k, hk, hns⟩
      exact ⟨k, (List.mem_insertionSort (r := fun a b : Key V => a.t ≤ b.t)).mpr hk, hns⟩
    obtain ⟨k, hkmem, hns, heq⟩ := mapM_normalize_key_error
      ((List.insertionSort (fun a b : Key V => a.t ≤ b.t) ks).getD 0 defaultKey).t _ hex2
    refine ⟨k, (List.mem_insertionSort (r := fun a b : Key V => a.t ≤ b.t)).mp hkmem, hns, ?_⟩
    rw [try_new, if_neg (by omega)]
    simp only []
    rw [heq]
    rfl

/-- Witness for C9: the empty key list is rejected as too few, and a pair of
keys whose first uses `Step` is rejected naming `Step`. -/
theorem try_new_error_cases_witness :
    try_new ([] : List (Key ℚ)) = .error .TooFewKeysError ∧
    (2 ≤ ks_step.length ∧ (∃ k ∈ ks_step, ¬supported_mode k.interpolation)) ∧
    (∃ k ∈ ks_step, ¬supported_mode k.interpolation ∧
      try_new ks_step = .error (.UnsupportedInterpolationMode k.interpolation.debugName)) :=
  ⟨try_new_error_cases.1 [] (by decide),
    ⟨by decide, by decide⟩,
    try_new_error_cases.2 ks_step (by decide) (by decide)⟩

/-- `Spline::add` appends at the end when the new key's time is at least
every existing key's time. -/
theorem spline_add_append (k : SplineKey V) (l : List (SplineKey V))
    (h : ∀ x ∈ l, x.t ≤ k.t) : spline_add k l = l ++ [k] := by
  induction l with
  | nil => rfl
  | cons x xs ih =>
    rw [spline_add, if_pos (h x (List.mem_cons_self x xs)),
      ih fun y hy => h y (List.mem_cons_of_mem x hy)]
    rfl

/-- `Spline::add` prepends when the new key's time is below the head's. -/
theorem spline_add_cons (k x : SplineKey V) (xs : List (SplineKey V))
    (h : ¬x.t ≤ k.t) : spline_add k (x :: xs) = k :: x :: xs := by
  rw [spline_add, if_neg h]

/-- In a strictly time-sorted key list the last entry has the maximal time. -/
theorem sorted_getD_last_max {l : List (SplineKey V)}
    (h : l.Pairwise fun a b => a.t < b.t) :
    ∀ x ∈ l, x.t ≤ (l.getD (l.length - 1) defaultSplineKey).t := by
  intro x hx
  obtain ⟨i, hi, rfl⟩ := List.mem_iff_getElem.mp hx
  rw [List.getD_eq_getElem?_getD, List.getElem?_eq_getElem (by omega),
    Option.getD_some]
  rcases Nat.lt_or_ge i (l.length - 1) with hlt | hge
  · exact le_of_lt (List.pairwise_iff_getElem.mp h i (l.length - 1) hi (by omega) hlt)
  · have hieq : i = l.length - 1 := by omega
    subst hieq
    exact le_refl _

/-- On a strictly time-sorted key list of supported modes, `try_new` succeeds
and produces exactly the normalized keys flanked by the two zero-gradient
boundary keys, playback clock zero, and end time last-minus-first input
time. -/
theorem try_new_ok_structure (ks : List (Key V)) (h2 : 2 ≤ ks.length)
    (hsort : ks.Pairwise fun a b => a.t < b.t)
    (hsup : ∀ k ∈ ks, supported_mode k.interpolation) :
    try_new ks = .ok
      { spline := boundary_start (normalized ks) ::
          (normalized ks ++ [boundary_end (normalized ks)]),
        current_time := 0,
        end_time := (ks.getLast?.getD defaultKey).t - (ks.getD 0 defaultKey).t } := by
  obtain ⟨k0, k1, rest, rfl⟩ : ∃ k0 k1 rest, ks = k0 :: k1 :: rest := by
    cases ks with
    | nil => simp at h2
    | cons k0 tl =>
      cases tl with
      | nil => simp at h2
      | cons k1 rest => exact ⟨k0, k1, rest, rfl⟩
  obtain ⟨m0, m1, mrest, hL⟩ : ∃ m0 m1 mrest,
      normalized (k0 :: k1 :: rest) = m0 :: m1 :: mrest := ⟨_, _, _, rfl⟩
  have hMlt : (normalized (k0 :: k1 :: rest)).Pairwise
      fun a b : SplineKey V => a.t < b.t := by
    rw [normalized, List.pairwise_map]
    exact hsort.imp fun h => by simpa using h
  have hMle : List.Sorted (fun a b : SplineKey V => a.t ≤ b.t)
      (normalized (k0 :: k1 :: rest)) := hMlt.imp le_of_lt
  have hMlen : (normalized (k0 :: k1 :: rest)).length = (k0 :: k1 :: rest).length := by
    simp [normalized]
  have hNE : ((normalized (k0 :: k1 :: rest)).getD
        ((normalized (k0 :: k1 :: rest)).length - 2) defaultSplineKey).t
      < ((normalized (k0 :: k1 :: rest)).getD
        ((normalized (k0 :: k1 :: rest)).length - 1) defaultSplineKey).t := by
    have ha : (normalized (k0 :: k1 :: rest)).length - 2
        < (normalized (k0 :: k1 :: rest)).length := by
      rw [hL]; simp only [List.length_cons]; omega
    have hb : (normalized (k0 :: k1 :: rest)).length - 1
        < (normalized (k0 :: k1 :: rest)).length := by
      rw [hL]; simp only [List.length_cons]; omega
    rw [List.getD_eq_getElem?_getD, List.getElem?_eq_getElem ha, Option.getD_some,
      List.getD_eq_getElem?_getD, List.getElem?_eq_getElem hb, Option.getD_some]
    refine List.pairwise_iff_getElem.mp hMlt _ _ ha hb ?_
    rw [hL]
    simp only [List.length_cons]
    omega
  have hbe : ∀ x ∈ normalized (k0 :: k1 :: rest),
      x.t ≤ (boundary_end (normalized (k0 :: k1 :: rest))).t := by
    intro x hx
    have hmax := sorted_getD_last_max hMlt x hx
    have hbet : (boundary_end (normalized (k0 :: k1 :: rest))).t =
        2 * ((normalized (k0 :: k1 :: rest)).getD
          ((normalized (k0 :: k1 :: rest)).length - 1) defaultSplineKey).t -
          ((normalized (k0 :: k1 :: rest)).getD
            ((normalized (k0 :: k1 :: rest)).length - 2) defaultSplineKey).t := rfl
    rw [hbet]
    linarith
  have hmap : List.map (fun k => (⟨k.t - ((k0 :: k1 :: rest).getD 0 defaultKey).t,
      k.value, supported_of k.interpolation⟩ : SplineKey V)) (k0 :: k1 :: rest)
      = m0 :: m1 :: mrest := hL
  rw [hL] at hMlt hMle hMlen hNE hbe
  rw [try_new, if_neg (by omega)]
  simp only []
  rw [List.Sorted.insertionSort_eq (hsort.imp fun {a b} h => le_of_lt h)]
  rw [mapM_normalize_key_ok _ _ hsup]
  simp only [Except.map]
  refine congrArg Except.ok ?_
  rw [hL, hmap]
  rw [from_vec, List.Sorted.insertionSort_eq hMle]
  rw [← hMlen]
  have hsub : (m0 :: m1 :: mrest).length - 1 - 1 = (m0 :: m1 :: mrest).length - 2 := by
    omega
  rw [hsub]
  have hfoldbe : create_zero_gradient
      ((m0 :: m1 :: mrest).getD ((m0 :: m1 :: mrest).length - 1) defaultSplineKey)
      ((m0 :: m1 :: mrest).getD ((m0 :: m1 :: mrest).length - 2) defaultSplineKey)
      = boundary_end (m0 :: m1 :: mrest) := rfl
  rw [hfoldbe]
  rw [spline_add_append _ _ hbe]
  have hg0 : ((m0 :: m1 :: mrest) ++ [boundary_end (m0 :: m1 :: mrest)]).getD 0
      defaultSplineKey = m0 := rfl
  have hg1 : ((m0 :: m1 :: mrest) ++ [boundary_end (m0 :: m1 :: mrest)]).getD 1
      defaultSplineKey = m1 := rfl
  rw [hg0, hg1]
  have hfoldbs : create_zero_gradient m0 m1 = boundary_start (m0 :: m1 :: mrest) := rfl
  rw [hfoldbs]
  have h01 : m0.t < m1.t :=
    (List.pairwise_cons.mp hMlt).1 m1 (List.mem_cons_self m1 mrest)
  have hnot : ¬m0.t ≤ (boundary_start (m0 :: m1 :: mrest)).t := by
    have hbst : (boundary_start (m0 :: m1 :: mrest)).t = 2 * m0.t - m1.t := rfl
    rw [hbst]
    linarith
  rw [List.cons_append, List.cons_append, spline_add_cons _ _ _ hnot]

/-- C6: a successful construction's spline is exactly the normalized input
keys with two appended synthetic boundary keys, one placed before the first
key and one after the last, each the `create_zero_gradient` point-reflection
of the edge key's interior neighbor (time `2*E.t - N.t`, `N`'s value, `E`'s
mode); the playback end time stays the last input key time minus the first,
unaffected by the added keys. -/
theorem boundary_keys_point_reflection (ks : List (Key V))
    (s : SplineInterpolator V) (k0 kl : Key V) (h2 : 2 ≤ ks.length)
    (hsort : ks.Pairwise fun a b => a.t < b.t)
    (hk0 : ks.head? = some k0) (hkl : ks.getLast? = some kl)
    (htry : try_new ks = .ok s) :
    s.spline = boundary_start (normalized ks) ::
      (normalized ks ++ [boundary_end (normalized ks)]) ∧
    s.spline.length = ks.length + 2 ∧
    boundary_end (normalized ks) =
      ⟨2 * ((normalized ks).getD (ks.length - 1) defaultSplineKey).t -
          ((normalized ks).getD (ks.length - 2) defaultSplineKey).t,
        ((normalized ks).getD (ks.length - 2) defaultSplineKey).value,
        ((normalized ks).getD (ks.length - 1) defaultSplineKey).interpolation⟩ ∧
    boundary_start (normalized ks) =
      ⟨2 * ((normalized ks).getD 0 defaultSplineKey).t -
          ((normalized ks).getD 1 defaultSplineKey).t,
        ((normalized ks).getD 1 defaultSplineKey).value,
        ((normalized ks).getD 0 defaultSplineKey).interpolation⟩ ∧
    s.end_time = kl.t - k0.t := by
  have hsup := try_new_ok_supported htry
  rw [try_new_ok_structure ks h2 hsort hsup] at htry
  obtain rfl := Except.ok.inj htry
  have hlen : (normalized ks).length = ks.length := by simp [normalized]
  refine ⟨rfl, ?_, ?_, rfl, ?_⟩
  · simp [List.length_append, hlen]
  · rw [boundary_end, hlen]
    rfl
  · have hgd0 : (ks.getD 0 defaultKey) = k0 := by
      cases ks with
      | nil => cases hk0
      | cons a l => simp at hk0; simp [hk0]
    rw [hkl, Option.getD_some, hgd0]

/-- C3: after construction from a sorted key list, `is_finished` holds at a
playback clock `c` exactly when `c` is at least the last key time minus the
first key time, and at any such clock `value` returns the final real
keyframe's value (the key before the synthetic trailing boundary key), not an
extrapolated sample. -/
theorem interpolator_finished_terminal (cosf : ℚ → ℚ) (ks : List (Key V))
    (s : SplineInterpolator V) (k0 kl : Key V) (h2 : 2 ≤ ks.length)
    (hsort : ks.Pairwise fun a b => a.t < b.t)
    (hk0 : ks.head? = some k0) (hkl : ks.getLast? = some kl)
    (htry : try_new ks = .ok s) (c : ℚ) :
    ((s.advance_by c).is_finished = true ↔ kl.t - k0.t ≤ c) ∧
    (kl.t - k0.t ≤ c → (s.advance_by c).value cosf = some (.ok kl.value)) := by
  have hsup := try_new_ok_supported htry
  rw [try_new_ok_structure ks h2 hsort hsup] at htry
  obtain rfl := Except.ok.inj htry
  have hgd0 : ks.getD 0 defaultKey = k0 := by
    cases ks with
    | nil => cases hk0
    | cons a l => simp at hk0; simp [hk0]
  have hend : (ks.getLast?.getD defaultKey).t - (ks.getD 0 defaultKey).t
      = kl.t - k0.t := by
    rw [hkl, Option.getD_some, hgd0]
  have hmne : normalized ks ≠ [] := by
    cases ks with
    | nil => cases hk0
    | cons a l => simp [normalized]
  constructor
  · rw [SplineInterpolator.advance_by, SplineInterpolator.is_finished]
    simp only [hend]
    simp [zero_add, hend]
  · intro hc
    have hterm : sample_or_terminal cosf
        (SplineInterpolator.advance_by
          { spline := boundary_start (normalized ks) ::
              (normalized ks ++ [boundary_end (normalized ks)]),
            current_time := 0,
            end_time := (ks.getLast?.getD defaultKey).t - (ks.getD 0 defaultKey).t } c)
        = some kl.value := by
      rw [SplineInterpolator.advance_by, sample_or_terminal]
      rw [if_pos (by simp only [hend]; simpa using hc)]
      simp only [List.reverse_cons, List.reverse_append, List.reverse_singleton,
        List.reverse_nil, List.nil_append, List.append_assoc, List.singleton_append]
      rw [List.getElem?_append, if_pos (by
        simp only [List.length_cons, List.length_reverse]
        have := List.length_pos.mpr hmne
        omega)]
      rw [show (boundary_end (normalized ks) :: (normalized ks).reverse)
          = [boundary_end (normalized ks)] ++ (normalized ks).reverse from rfl]
      rw [List.getElem?_append, if_neg (by simp)]
      rw [show (1 : Nat) - [boundary_end (normalized ks)].length = 0 from rfl]
      rw [← List.head?_eq_getElem?, List.head?_reverse]
      rw [normalized, List.getLast?_map, hkl]
      rfl
    rw [SplineInterpolator.value, hterm]

/-- Linear interpolation at parameter 0 is the left value. -/
theorem lerp_zero (a b : V) : lerp a b 0 = a := by
  simp [lerp]

/-- The cubic Hermite sample at parameter 0 is the lower control value. -/
theorem cubic_hermite_zero (x a b y : V × ℚ) : cubic_hermite x a b y 0 = a.1 := by
  simp [cubic_hermite]

/-- `find?` over `range m` when the predicate fails at 0 and holds at 1. -/
theorem find?_range_two {p : Nat → Bool} {m : Nat} (h2 : 2 ≤ m)
    (h0 : p 0 = false) (h1 : p 1 = true) : (List.range m).find? p = some 1 := by
  obtain ⟨m2, rfl⟩ : ∃ m2, m = m2 + 2 := ⟨m - 2, by omega⟩
  rw [List.range_succ_eq_map, List.range_succ_eq_map]
  rw [List.find?_cons_of_neg _ (by simp [h0]), List.map_cons]
  rw [List.find?_cons_of_pos _ (by simpa using h1)]

/-- C5: for any key list of at least two keys with strictly increasing
times whose construction succeeds, `value` immediately after construction
(playback clock 0) returns exactly the first key's value, for every supported
interpolation mode of the first key. -/
theorem value_at_time_zero (cosf : ℚ → ℚ) (ks : List (Key V))
    (s : SplineInterpolator V) (k0 : Key V) (h2 : 2 ≤ ks.length)
    (hsort : ks.Pairwise fun a b => a.t < b.t)
    (hk0 : ks.head? = some k0) (hcos : cosf 0 = 1)
    (htry : try_new ks = .ok s) :
    s.value cosf = some (.ok k0.value) := by
  have hsup := try_new_ok_supported htry
  rw [try_new_ok_structure ks h2 hsort hsup] at htry
  obtain rfl := Except.ok.inj htry
  obtain ⟨ka, kb, rest, rfl⟩ : ∃ ka kb rest, ks = ka :: kb :: rest := by
    cases ks with
    | nil => simp at h2
    | cons ka tl =>
      cases tl with
      | nil => simp at h2
      | cons kb rest => exact ⟨ka, kb, rest, rfl⟩
  obtain rfl : ka = k0 := by simpa using hk0
  have hab : ka.t < kb.t :=
    (List.pairwise_cons.mp hsort).1 kb (List.mem_cons_self kb rest)
  have hendpos : 0 < ((ka :: kb :: rest).getLast?.getD defaultKey).t -
      ((ka :: kb :: rest).getD 0 defaultKey).t := by
    rw [List.getLast?_eq_getElem?, List.getElem?_eq_getElem (by simp), Option.getD_some]
    have h0 := List.pairwise_iff_getElem.mp hsort 0 ((ka :: kb :: rest).length - 1)
      (by simp) (by simp) (by simp)
    simpa [sub_pos] using h0
  have hsot : sample_or_terminal cosf
      { spline := boundary_start (normalized (ka :: kb :: rest)) ::
          (normalized (ka :: kb :: rest) ++ [boundary_end (normalized (ka :: kb :: rest))]),
        current_time := 0,
        end_time := ((ka :: kb :: rest).getLast?.getD defaultKey).t -
          ((ka :: kb :: rest).getD 0 defaultKey).t }
      = sample cosf (boundary_start (normalized (ka :: kb :: rest)) ::
          (normalized (ka :: kb :: rest) ++ [boundary_end (normalized (ka :: kb :: rest))])) 0 := by
    rw [sample_or_terminal, if_neg (by simpa using not_le.mpr hendpos)]
  have hg1 : (boundary_start (normalized (ka :: kb :: rest)) ::
      (normalized (ka :: kb :: rest) ++ [boundary_end (normalized (ka :: kb :: rest))])).getD 1
      defaultSplineKey
      = (⟨ka.t - ka.t, ka.value, supported_of ka.interpolation⟩ : SplineKey V) := rfl
  have hg2 : (boundary_start (normalized (ka :: kb :: rest)) ::
      (normalized (ka :: kb :: rest) ++ [boundary_end (normalized (ka :: kb :: rest))])).getD 2
      defaultSplineKey
      = (⟨kb.t - ka.t, kb.value, supported_of kb.interpolation⟩ : SplineKey V) := rfl
  have hlen : (boundary_start (normalized (ka :: kb :: rest)) ::
      (normalized (ka :: kb :: rest) ++ [boundary_end (normalized (ka :: kb :: rest))])).length
      = rest.length + 4 := by
    simp [normalized]
  have hsearch : search_lower_cp (boundary_start (normalized (ka :: kb :: rest)) ::
      (normalized (ka :: kb :: rest) ++ [boundary_end (normalized (ka :: kb :: rest))])) 0
      = some 1 := by
    rw [search_lower_cp]
    refine find?_range_two (by rw [hlen]; omega) ?_ ?_
    · rw [show (0:Nat) + 1 = 1 from rfl, hg1]
      simp [sub_self]
    · rw [show (1:Nat) + 1 = 2 from rfl, hg1, hg2]
      show (decide ((ka.t - ka.t : ℚ) ≤ 0) && decide ((0:ℚ) < kb.t - ka.t)) = true
      rw [sub_self]
      rw [show decide ((0:ℚ) ≤ 0) = true from by decide, Bool.true_and,
        decide_eq_true_eq]
      exact sub_pos.mpr hab
  have hsamp : sample cosf (boundary_start (normalized (ka :: kb :: rest)) ::
      (normalized (ka :: kb :: rest) ++ [boundary_end (normalized (ka :: kb :: rest))])) 0
      = some ka.value := by
    rw [sample, hsearch]
    simp only []
    rw [show (1:Nat) + 1 = 2 from rfl, hg1, hg2]
    rcases hsup ka (List.mem_cons_self ka (kb :: rest)) with hm | hm | hm <;> rw [hm]
    · simp [supported_of, normalize_time, sub_self, lerp_zero]
    · simp [supported_of, normalize_time, sub_self, hcos, lerp_zero]
    · simp only [supported_of]
      rw [if_neg (by rw [hlen]; omega)]
      simp [normalize_time, sub_self, cubic_hermite_zero]
  rw [SplineInterpolator.value, hsot.trans hsamp]


/-- `takeWhile` stops exactly at a failing element placed after satisfying ones. -/
theorem takeWhile_middle {α : Type} (p : α → Bool) (A B : List α) (x : α)
    (hA : ∀ a ∈ A, p a = true) (hx : p x = false) :
    (A ++ x :: B).takeWhile p = A := by
  induction A with
  | nil =>
    simp only [List.nil_append]
    rw [List.takeWhile_cons_of_neg (by simp [hx])]
  | cons a as ih =>
    rw [List.cons_append, List.takeWhile_cons_of_pos (hA a (List.mem_cons_self a as)),
      ih fun y hy => hA y (List.mem_cons_of_mem a hy)]

/-- On a strictly time-sorted list, filtering by `t < c` is a prefix, so it
equals `takeWhile`. -/
theorem filter_lt_eq_takeWhile (c : ℚ) (l : List (SplineKey V))
    (h : l.Pairwise fun a b => a.t < b.t) :
    (l.filter fun k => decide (k.t < c)) = l.takeWhile fun k => decide (k.t < c) := by
  induction l with
  | nil => rfl
  | cons x xs ih =>
    obtain ⟨hx, hxs⟩ := List.pairwise_cons.mp h
    by_cases hxc : x.t < c
    · rw [List.filter_cons_of_pos (by simpa using hxc),
        List.takeWhile_cons_of_pos (by simpa using hxc), ih hxs]
    · rw [List.filter_cons_of_neg (by simpa using hxc),
        List.takeWhile_cons_of_neg (by simpa using hxc)]
      rw [List.filter_eq_nil_iff]
      intro a ha
      simp only [decide_eq_true_eq]
      intro hac
      exact hxc (lt_trans (hx a ha) hac)

/-- The `prior_control_points` count of `create_control_key_error` on a
strictly sorted key list: taking while the time differs from the current
control key's stops one before the end of the strictly-before prefix. -/
theorem takeWhile_ne_getLast_filter (c : ℚ) (l : List (SplineKey V))
    (cck : SplineKey V) (h : l.Pairwise fun a b => a.t < b.t)
    (hf : (l.filter fun k => decide (k.t < c)).getLast? = some cck) :
    (l.takeWhile fun k => decide (k.t ≠ cck.t)).length
      = (l.filter fun k => decide (k.t < c)).length - 1 := by
  have hne : (l.filter fun k => decide (k.t < c)) ≠ [] := by
    intro hnil; rw [hnil] at hf; cases hf
  have hcck : (l.filter fun k => decide (k.t < c)).getLast hne = cck := by
    have hgl := List.getLast?_eq_getLast (l.filter fun k => decide (k.t < c)) hne
    rw [hgl] at hf
    exact Option.some.inj hf
  have hFsub : (l.filter fun k => decide (k.t < c)).Pairwise
      fun a b : SplineKey V => a.t < b.t := h.sublist (List.filter_sublist _)
  have hdlg : (l.filter fun k => decide (k.t < c)).dropLast ++ [cck]
      = l.filter fun k => decide (k.t < c) := by
    rw [← hcck]
    exact List.dropLast_append_getLast hne
  have hsplit : (l.filter fun k => decide (k.t < c))
      ++ List.dropWhile (fun k => decide (k.t < c)) l = l := by
    have hs := List.takeWhile_append_dropWhile (fun k => decide (k.t < c)) l
    rw [← filter_lt_eq_takeWhile c l h] at hs
    exact hs
  have hdropcck : (l.filter fun k => decide (k.t < c)).dropLast
      ++ cck :: List.dropWhile (fun k => decide (k.t < c)) l = l := by
    calc (l.filter fun k => decide (k.t < c)).dropLast
          ++ cck :: List.dropWhile (fun k => decide (k.t < c)) l
        = ((l.filter fun k => decide (k.t < c)).dropLast ++ [cck])
          ++ List.dropWhile (fun k => decide (k.t < c)) l := by
          rw [List.append_assoc]; rfl
      _ = (l.filter fun k => decide (k.t < c))
          ++ List.dropWhile (fun k => decide (k.t < c)) l := by rw [hdlg]
      _ = l := hsplit
  have hFsplit : ((l.filter fun k => decide (k.t < c)).dropLast
      ++ [cck]).Pairwise fun a b : SplineKey V => a.t < b.t := by
    rw [hdlg]
    exact hFsub
  have hxcck : (fun k : SplineKey V => decide (k.t ≠ cck.t)) cck = false :=
    decide_eq_false (not_ne_iff.mpr rfl)
  have htake : l.takeWhile (fun k => decide (k.t ≠ cck.t))
      = (l.filter fun k => decide (k.t < c)).dropLast := by
    conv_lhs => rw [← hdropcck]
    refine takeWhile_middle _ _ _ _ ?_ hxcck
    intro a ha
    have hpair := List.pairwise_append.mp hFsplit
    have halt : a.t < cck.t := hpair.2.2 a ha cck (List.mem_singleton_self cck)
    simp only [decide_eq_true_eq]
    exact ne_of_lt halt
  rw [htake, List.length_dropLast]

/-- C4 (amended): whenever `value` returns an error, it is an
`InterpolationControlKeyError` carrying the mode of the last key strictly
before the playback time, a `keys_before` count equal to the number of keys
strictly before the playback time minus one (the keys preceding that control
key), and the remaining keys (`len - 1 - keys_before`, the count of keys at
or after the playback time) as `keys_after`. -/
theorem control_key_error_payload (cosf : ℚ → ℚ) (s : SplineInterpolator V)
    (e : InterpolatorError)
    (hsort : s.spline.Pairwise fun a b => a.t < b.t)
    (hval : s.value cosf = some (.error e)) :
    ∃ cck : SplineKey V,
      (s.spline.filter fun k => decide (k.t < s.current_time)).getLast? = some cck ∧
      e = .InterpolationControlKeyError cck.interpolation.debugName
        ((s.spline.filter fun k => decide (k.t < s.current_time)).length - 1)
        (s.spline.length -
          (s.spline.filter fun k => decide (k.t < s.current_time)).length) := by
  rw [SplineInterpolator.value] at hval
  cases hsot : sample_or_terminal cosf s with
  | some v =>
    rw [hsot] at hval
    simp at hval
  | none =>
    rw [hsot] at hval
    rw [create_control_key_error] at hval
    cases hf : (s.spline.filter fun k => decide (k.t < s.current_time)).getLast? with
    | none => rw [hf] at hval; cases hval
    | some cck =>
      rw [hf] at hval
      simp only [Option.map_some', Option.some.injEq] at hval
      have hval2 := Except.error.inj hval.symm
      refine ⟨cck, rfl, ?_⟩
      have hne : (s.spline.filter fun k => decide (k.t < s.current_time)) ≠ [] := by
        intro hnil; rw [hnil] at hf; cases hf
      have hlen1 : 1 ≤ (s.spline.filter fun k => decide (k.t < s.current_time)).length := by
        cases hh : (s.spline.filter fun k => decide (k.t < s.current_time)) with
        | nil => exact absurd hh hne
        | cons y ys => simp [hh]
      have hlen2 : (s.spline.filter fun k => decide (k.t < s.current_time)).length
          ≤ s.spline.length := List.length_filter_le _ _
      have htake := takeWhile_ne_getLast_filter s.current_time s.spline cck hsort hf
      rw [hval2, htake]
      congr 1
      omega

/-- C10: `value` panics (the `unwrap` inside the diagnostic constructor)
exactly when the sampling step fails and no spline key lies strictly before
the playback time; with at least one such key every failure is returned as an
error instead. -/
theorem value_panic_iff_no_prior_key (cosf : ℚ → ℚ) (s : SplineInterpolator V) :
    s.value cosf = none ↔
      (sample_or_terminal cosf s = none ∧
        (s.spline.filter fun k => decide (k.t < s.current_time)) = []) := by
  rw [SplineInterpolator.value]
  cases hsot : sample_or_terminal cosf s with
  | some v => simp [hsot]
  | none =>
    simp only [hsot]
    rw [create_control_key_error]
    cases hf : (s.spline.filter fun k => decide (k.t < s.current_time)).getLast? with
    | none => simp [List.getLast?_eq_none_iff.mp hf]
    | some cck =>
      have hne : (s.spline.filter fun k => decide (k.t < s.current_time)) ≠ [] := by
        intro hnil; rw [hnil] at hf; cases hf
      simp [hne]

/-- Witness for C3 at the concrete two-key motion: at playback clock 5 the
interpolator is finished and returns the final keyframe's value 7. -/
theorem interpolator_finished_terminal_witness :
    try_new ks2 = .ok interp2 ∧
    ((interp2.advance_by 5).is_finished = true ↔
      ((⟨1, 7, .Linear⟩ : Key ℚ).t - (⟨0, 3, .Linear⟩ : Key ℚ).t ≤ 5)) ∧
    (interp2.advance_by 5).value cosfConst = some (.ok 7) :=
  ⟨by decide,
    (interpolator_finished_terminal cosfConst ks2 interp2 ⟨0, 3, .Linear⟩
      ⟨1, 7, .Linear⟩ (by decide) (by decide) rfl rfl (by decide) 5).1,
    (interpolator_finished_terminal cosfConst ks2 interp2 ⟨0, 3, .Linear⟩
      ⟨1, 7, .Linear⟩ (by decide) (by decide) rfl rfl (by decide) 5).2 (by decide)⟩

/-- Witness for C5 at the concrete two-key motion: the sample at playback
clock 0 is the first key's value 3. -/
theorem value_at_time_zero_witness :
    try_new ks2 = .ok interp2 ∧ cosfConst 0 = 1 ∧
    interp2.value cosfConst = some (.ok 3) :=
  ⟨by decide, rfl,
    value_at_time_zero cosfConst ks2 interp2 ⟨0, 3, .Linear⟩ (by decide) (by decide)
      rfl rfl (by decide)⟩

/-- Witness for C6 at the concrete two-key motion: the constructed spline is
the two normalized keys flanked by the two boundary keys. -/
theorem boundary_keys_point_reflection_witness :
    try_new ks2 = .ok interp2 ∧
    interp2.spline = boundary_start (normalized ks2) ::
      (normalized ks2 ++ [boundary_end (normalized ks2)]) ∧
    interp2.spline.length = ks2.length + 2 :=
  ⟨by decide,
    (boundary_keys_point_reflection ks2 interp2 ⟨0, 3, .Linear⟩ ⟨1, 7, .Linear⟩
      (by decide) (by decide) rfl rfl (by decide)).1,
    (boundary_keys_point_reflection ks2 interp2 ⟨0, 3, .Linear⟩ ⟨1, 7, .Linear⟩
      (by decide) (by decide) rfl rfl (by decide)).2.1⟩

/-- Counterexample to C4 as stated: at the concrete state `s4` sampling
fails, the diagnostic reports 2 keys before, yet 3 keys of the spline lie
strictly before the playback time — the code counts the keys before the
current control key, not the keys before the playback time. -/
theorem control_key_error_payload_counterexample :
    s4.value cosfConst
      = some (.error (.InterpolationControlKeyError "CatmullRom" 2 1)) ∧
    (s4.spline.filter fun k => decide (k.t < s4.current_time)).length = 3 ∧
    (2 : Nat) ≠ 3 :=
  ⟨by decide, by decide, by decide⟩

/-- Witness for the amended C4 at the concrete state `s4`. -/
theorem control_key_error_payload_witness :
    s4.spline.Pairwise (fun a b : SplineKey ℚ => a.t < b.t) ∧
    s4.value cosfConst
      = some (.error (.InterpolationControlKeyError "CatmullRom" 2 1)) ∧
    ∃ cck : SplineKey ℚ,
      (s4.spline.filter fun k => decide (k.t < s4.current_time)).getLast?
        = some cck ∧
      (.InterpolationControlKeyError "CatmullRom" 2 1 : InterpolatorError)
        = .InterpolationControlKeyError cck.interpolation.debugName
          ((s4.spline.filter fun k => decide (k.t < s4.current_time)).length - 1)
          (s4.spline.length -
            (s4.spline.filter fun k => decide (k.t < s4.current_time)).length) :=
  ⟨by decide, by decide,
    control_key_error_payload cosfConst s4
      (.InterpolationControlKeyError "CatmullRom" 2 1) (by decide) (by decide)⟩
